import Mathlib

/-!
Verification development for the git-blame-gutter line-attribution engine
(`src/extension.ts`).  The parser (`getBlameInfo`, lines 186-230) and the
heat mapper (`applyDecorations` / `getColorFromRatio`, lines 245-337) are
embedded as executable Lean functions over `List Char` strings; JavaScript
`NaN` results of `parseInt` are modelled as `Option.none`, `Infinity` /
`-Infinity` fold seeds as `Option.none`, and the per-hash shared mutable
`BlameInfo` objects as an insertion-ordered association list keyed by the
commit hash (one arena slot per hash).
-/

/-- Strings are modelled as character lists so that all operations are
structural and kernel-evaluable. -/
abbrev Str := List Char

/-- Embedding of `String.prototype.split(sep)` for a one-character
separator: `"a,,b".split(',') = ["a","","b"]`, `"".split(',') = [""]`. -/
def splitOnChar (sep : Char) : Str → List Str
  | [] => [[]]
  | c :: cs =>
    match splitOnChar sep cs with
    | [] => if c = sep then [[], []] else [[c]]
    | h :: t => if c = sep then [] :: h :: t else (c :: h) :: t

/-- Embedding of `s.startsWith(pfx)`. -/
def strStarts : Str → Str → Bool
  | [], _ => true
  | _ :: _, [] => false
  | p :: ps, c :: cs => p == c && strStarts ps cs

/-- Embedding of `String.prototype.trim()` (strip whitespace both ends). -/
def jsTrim (s : Str) : Str :=
  ((s.dropWhile Char.isWhitespace).reverse.dropWhile Char.isWhitespace).reverse

/-- Value of a list of decimal digit characters. -/
def digitsVal (ds : Str) : Nat :=
  ds.foldl (fun a c => 10 * a + (c.toNat - '0'.toNat)) 0

/-- Leading decimal digits of a character list, as a number; `none` when
there is no leading digit. -/
def leadingNat (r : Str) : Option Nat :=
  let ds := r.takeWhile Char.isDigit
  if ds.isEmpty then none else some (digitsVal ds)

/-- Embedding of JavaScript `parseInt(s)` on the decimal inputs this
program feeds it: skip leading whitespace, optional sign, then leading
decimal digits; `none` models the `NaN` result.  (The automatic radix-16
detection of a `0x` prefix is not modelled; no input here carries one.) -/
def parseIntJS (s : Str) : Option Int :=
  match s.dropWhile Char.isWhitespace with
  | '-' :: r => (leadingNat r).map (fun n => -(n : Int))
  | '+' :: r => (leadingNat r).map (fun n => (n : Int))
  | r => (leadingNat r).map (fun n => (n : Int))

/-- One lowercase hexadecimal digit, as in the character class of the
regex `/^[0-9a-f]{40}$/`. -/
def isLowerHexDigit (c : Char) : Bool :=
  decide (('0' ≤ c ∧ c ≤ '9') ∨ ('a' ≤ c ∧ c ≤ 'f'))

/-- Embedding of `/^[0-9a-f]{40}$/.test(s)`. -/
def isHex40 (s : Str) : Bool :=
  s.length == 40 && s.all isLowerHexDigit

/-- The all-zero sentinel hash `'0000000000000000000000000000000000000000'`. -/
def zeroHash : Str := List.replicate 40 '0'

/-- Embedding of the `BlameInfo` interface.  `time : Option Int` models a
JavaScript number that is either an integer or `NaN` (`none`); it starts
as `some 0`. -/
structure BlameInfo where
  hash : Str
  author : Str
  time : Option Int
  summary : Option Str
deriving DecidableEq, Repr

/-- An element of the parser's `result` array while parsing: the line
number (`none` models `NaN`) together with the arena key (the hash) of
the shared `BlameInfo` it references. -/
structure RawEntry where
  line : Option Int
  key : Str
deriving DecidableEq, Repr

/-- The parser state: `blameMap` (insertion-ordered association list
embedding the `Map<string, BlameInfo>`), `currentHash`, and the `result`
array accumulated so far. -/
structure ParseState where
  blameMap : List (Str × BlameInfo)
  currentHash : Str
  result : List RawEntry
deriving DecidableEq, Repr

/-- Association-list lookup, embedding `Map.prototype.get`. -/
def aget {α β : Type} [DecidableEq α] (m : List (α × β)) (k : α) : Option β :=
  (m.find? (fun p => decide (p.1 = k))).map (fun p => p.2)

/-- Embedding of `Map.prototype.has`. -/
def ahas {α β : Type} [DecidableEq α] (m : List (α × β)) (k : α) : Bool :=
  (aget m k).isSome

/-- In-place update of the value stored at a key, embedding a JavaScript
mutation of the object previously obtained with `Map.get`. -/
def aupdate {α β : Type} [DecidableEq α] (m : List (α × β)) (k : α) (f : β → β) :
    List (α × β) :=
  m.map (fun p => if p.1 = k then (p.1, f p.2) else p)

/-- Embedding of `Map.prototype.set` (overwrite in place, else append). -/
def aset {α β : Type} [DecidableEq α] (m : List (α × β)) (k : α) (v : β) :
    List (α × β) :=
  if ahas m k then aupdate m k (fun _ => v) else m ++ [(k, v)]

/-- Embedding of one iteration of the parsing loop of `getBlameInfo`
(`src/extension.ts` lines 192-229) on one protocol line. -/
def processLine (st : ParseState) (line : Str) : ParseState :=
  if line.isEmpty then st
  else
    let parts := splitOnChar ' ' line
    let hash := parts.headD []
    if isHex40 hash then
      let lineNum : Option Int := parseIntJS (parts.getD 2 [])
      let count : Option Int := parseIntJS (parts.getD 3 [])
      let m :=
        if ahas st.blameMap hash then st.blameMap
        else st.blameMap ++ [(hash, ⟨hash, [], some 0, none⟩)]
      let newEntries : List RawEntry :=
        if hash ≠ zeroHash then
          match count with
          | none => []
          | some c =>
            (List.range c.toNat).map (fun j => ⟨lineNum.map (fun v => v + (j : Int)), hash⟩)
        else []
      { blameMap := m, currentHash := hash, result := st.result ++ newEntries }
    else
      match aget st.blameMap st.currentHash with
      | none => st
      | some _ =>
        if strStarts "author ".data line then
          { st with blameMap := (aupdate st.blameMap st.currentHash
              (fun i => { i with author := jsTrim (line.drop 7) })) }
        else if strStarts "author-time ".data line then
          { st with blameMap := (aupdate st.blameMap st.currentHash
              (fun i => { i with time := parseIntJS (jsTrim (line.drop 12)) })) }
        else if strStarts "summary ".data line then
          { st with blameMap := (aupdate st.blameMap st.currentHash
              (fun i => { i with summary := some (jsTrim (line.drop 8)) })) }
        else st

/-- Running the parsing loop over a list of protocol lines from a given
state. -/
def parseLines (ls : List Str) (st : ParseState) : ParseState :=
  ls.foldl processLine st

/-- The final parser state for raw tool output `s` (split on `'\n'` as by
`stdout.split('\n')`). -/
def parseState (s : Str) : ParseState :=
  parseLines (splitOnChar '\n' s) ⟨[], [], []⟩

/-- Embedding of the `BlameLine` interface: a line number paired with the
`BlameInfo` it references. -/
structure BlameLine where
  line : Option Int
  info : BlameInfo
deriving DecidableEq, Repr

/-- Resolution of the arena keys stored in `result` through the final
`blameMap`, embedding the shared-reference semantics of
`blameMap.get(hash)!` (the default is unreachable: every key in `result`
was inserted by the hunk header that emitted it). -/
def finalize (st : ParseState) : List BlameLine :=
  st.result.map (fun e => ⟨e.line, (aget st.blameMap e.key).getD ⟨e.key, [], some 0, none⟩⟩)

/-- Embedding of `getBlameInfo`'s parse of the whole blame stream: the
attribution table the promise resolves with. -/
def parseBlame (s : Str) : List BlameLine :=
  finalize (parseState s)

/-- One step of the `minTime` scan of `applyDecorations`
(`if (l.info.time < minTime) minTime = l.info.time`): the accumulator
`none` models the `Infinity` seed, and a `NaN` time (`none`) never
updates it because `NaN < x` is false. -/
def minStep (mn : Option Int) (l : BlameLine) : Option Int :=
  match l.info.time, mn with
  | none, _ => mn
  | some t, none => some t
  | some t, some m => if t < m then some t else some m

/-- One step of the `maxTime` scan (`if (l.info.time > maxTime) maxTime =
l.info.time`); the accumulator `none` models the `-Infinity` seed. -/
def maxStep (mx : Option Int) (l : BlameLine) : Option Int :=
  match l.info.time, mx with
  | none, _ => mx
  | some t, none => some t
  | some t, some m => if m < t then some t else some m

/-- `minTime` after the scan over the whole table. -/
def minTimeOf (bl : List BlameLine) : Option Int :=
  bl.foldl minStep none

/-- `maxTime` after the scan over the whole table. -/
def maxTimeOf (bl : List BlameLine) : Option Int :=
  bl.foldl maxStep none

/-- The age ratio computed per rendered line:
`maxTime !== minTime && minTime !== Infinity ? (maxTime - time) / (maxTime - minTime) : 0`.
The two accumulators are `none` together (they scan the same list), so the
guard amounts to both being defined and different. -/
def heatRatio (mn mx : Option Int) (t : Int) : ℚ :=
  match mn, mx with
  | some m, some M => if M ≠ m then ((M : ℚ) - (t : ℚ)) / ((M : ℚ) - (m : ℚ)) else 0
  | _, _ => 0

/-- Embedding of `Math.round` (round half toward positive infinity). -/
def jsRound (q : ℚ) : Int := ⌊q + 1 / 2⌋

/-- Decimal digits of a natural number, as characters. -/
def natToChars (n : Nat) : Str := Nat.toDigits 10 n

/-- JavaScript decimal rendering of an integer-valued number. -/
def intToChars (i : Int) : Str :=
  if i < 0 then '-' :: natToChars i.natAbs else natToChars i.toNat

/-- Embedding of `getColorFromRatio` (`src/extension.ts` lines 317-337). -/
def getColorFromRatio (isDarkTheme : Bool) (ratio : ℚ) : Str :=
  let s : Int := jsRound (50 - ratio * 40)
  let l : Int :=
    if isDarkTheme then jsRound (30 - ratio * 15) else jsRound (85 + ratio * 11)
  "hsl(210, ".data ++ intToChars s ++ "%, ".data ++ intToChars l ++ "%)".data

/-- Proleptic-Gregorian civil date `(year, month, day)` of a day number
counted from the Unix epoch; this is the calendar computation behind the
JavaScript `Date` getters.  Valid for day numbers `z ≥ -719468`
(year 0 onward), which covers every timestamp this program renders. -/
def civilFromDays (z : Int) : Int × Nat × Nat :=
  let n : Nat := (z + 719468).toNat
  let era : Nat := n / 146097
  let doe : Nat := n % 146097
  let yoe : Nat := (doe - doe / 1460 + doe / 36524 - doe / 146096) / 365
  let y : Nat := yoe + era * 400
  let doy : Nat := doe - (365 * yoe + yoe / 4 - yoe / 100)
  let mp : Nat := (5 * doy + 2) / 153
  let d : Nat := doy - (153 * mp + 2) / 5 + 1
  let m : Nat := if mp < 10 then mp + 3 else mp - 9
  ((y : Int) + (if m ≤ 2 then 1 else 0), m, d)

/-- Embedding of `padStart(2, '0')`. -/
def pad2 (s : Str) : Str := List.replicate (2 - s.length) '0' ++ s

/-- Embedding of the date label
`` `${date.getFullYear()}/${(date.getMonth() + 1)...padStart(2,'0')}/${date.getDate()...padStart(2,'0')}` ``
for `new Date(time * 1000)`.  The host's local timezone (including its
effect through the three local-time getters) is modelled as a fixed
offset `tzOffsetSec` in seconds east of UTC. -/
def dateChars (tzOffsetSec t : Int) : Str :=
  let z := Int.fdiv (t + tzOffsetSec) 86400
  let c := civilFromDays z
  intToChars c.1 ++ '/' :: pad2 (natToChars c.2.1) ++ '/' :: pad2 (natToChars c.2.2)

/-- Embedding of the author-field computation (`src/extension.ts` lines
269-274): `info.author || 'Unknown'`, then `substring(0, 6)` or
`padEnd(6, ' ')`. -/
def authorDisplay (a : Str) : Str :=
  let author := if a.isEmpty then "Unknown".data else a
  if 6 < author.length then author.take 6
  else author ++ List.replicate (6 - author.length) ' '

/-- The gutter label `` `${dateStr} ${author}` ``. -/
def labelText (tzOffsetSec t : Int) (a : Str) : Str :=
  dateChars tzOffsetSec t ++ ' ' :: authorDisplay a

/-- One decoration's render options: `contentText`, `backgroundColor`,
and the optional `color` (absent on placeholders). -/
structure RenderInstruction where
  contentText : Str
  backgroundColor : Str
  color : Option Str
deriving DecidableEq, Repr

/-- The placeholder decoration pushed for lines without blame info:
`' '.repeat(GUTTER_WIDTH_CHARS)` over a transparent background. -/
def placeholderIns : RenderInstruction :=
  ⟨List.replicate 18 (Char.ofNat 160), "transparent".data, none⟩

/-- The body of the per-line loop of `applyDecorations` (lines 261-307):
given the scanned `minTime` / `maxTime` and the `lineToBlame` lookup
result for this line, produce its decoration. -/
def renderFor (mn mx : Option Int) (isDarkTheme : Bool) (tzOffsetSec : Int)
    (infoOpt : Option BlameInfo) : RenderInstruction :=
  match infoOpt with
  | some info =>
    match info.time with
    | some t =>
      if 0 < t then
        ⟨labelText tzOffsetSec t info.author,
         getColorFromRatio isDarkTheme (heatRatio mn mx t),
         some (if isDarkTheme then "#cccccc".data else "#555555".data)⟩
      else placeholderIns
    | none => placeholderIns
  | none => placeholderIns

/-- The `lineToBlame` map (`blameLines.forEach(l => lineToBlame.set(l.line - 1, l.info))`);
keys follow JavaScript `Map` SameValueZero equality, under which the
`NaN` key (`none`) is equal to itself. -/
def lineToBlame (bl : List BlameLine) : List (Option Int × BlameInfo) :=
  bl.foldl (fun m l => aset m (l.line.map (fun v => v - 1)) l.info) []

/-- Embedding of `applyDecorations` (`src/extension.ts` lines 245-310):
the ordered list of decorations, one per document line index
`0 .. lineCount - 1`. -/
def applyDecorations (bl : List BlameLine) (lineCount : Nat) (isDarkTheme : Bool)
    (tzOffsetSec : Int) : List RenderInstruction :=
  let mn := minTimeOf bl
  let mx := maxTimeOf bl
  let m := lineToBlame bl
  (List.range lineCount).map
    (fun (i : Nat) => renderFor mn mx isDarkTheme tzOffsetSec (aget m (some (Int.ofNat i))))

section AssocLemmas

variable {α β : Type} [DecidableEq α]

lemma aget_nil (k : α) : aget ([] : List (α × β)) k = none := rfl

lemma aget_cons (p : α × β) (m : List (α × β)) (k : α) :
    aget (p :: m) k = if p.1 = k then some p.2 else aget m k := by
  by_cases h : p.1 = k <;> simp [aget, List.find?, h]

lemma aget_append (m m' : List (α × β)) (k : α) :
    aget (m ++ m') k = ((aget m k).or (aget m' k)) := by
  induction m with
  | nil => simp [aget_nil]
  | cons p t ih =>
    by_cases h : p.1 = k <;> simp [aget_cons, h, ih]

lemma aget_update_self (m : List (α × β)) (k : α) (f : β → β) :
    aget (aupdate m k f) k = (aget m k).map f := by
  induction m with
  | nil => simp [aupdate, aget_nil]
  | cons p t ih =>
    by_cases h : p.1 = k
    · simp [aupdate, aget_cons, h]
    · simpa [aupdate, aget_cons, h] using ih

lemma aget_update_ne (m : List (α × β)) (k k' : α) (f : β → β) (h : k' ≠ k) :
    aget (aupdate m k f) k' = aget m k' := by
  induction m with
  | nil => simp [aupdate, aget_nil]
  | cons p t ih =>
    simp only [aupdate, List.map_cons] at ih ⊢
    by_cases hp : p.1 = k
    · have hk' : ¬p.1 = k' := by rw [hp]; exact fun e => h e.symm
      rw [if_pos hp, aget_cons, aget_cons, if_neg hk']
      simpa [hk'] using ih
    · rw [if_neg hp, aget_cons, aget_cons]
      by_cases hp' : p.1 = k'
      · simp [hp']
      · simp [hp', ih]

lemma mem_of_aget_some {m : List (α × β)} {k : α} {v : β}
    (h : aget m k = some v) : (k, v) ∈ m := by
  induction m with
  | nil => simp [aget_nil] at h
  | cons p t ih =>
    rw [aget_cons] at h
    by_cases hp : p.1 = k
    · rw [if_pos hp] at h
      obtain ⟨a, b⟩ := p
      injection h with hv
      simp only [] at hp
      subst hp
      subst hv
      exact List.mem_cons_self _ _
    · rw [if_neg hp] at h
      exact List.mem_cons_of_mem _ (ih h)

lemma aget_none_iff {m : List (α × β)} {k : α} :
    aget m k = none ↔ ∀ p ∈ m, p.1 ≠ k := by
  induction m with
  | nil => simp [aget_nil]
  | cons p t ih =>
    rw [aget_cons]
    by_cases hp : p.1 = k <;> simp [hp, ih]

lemma keys_aupdate (m : List (α × β)) (k : α) (f : β → β) :
    (aupdate m k f).map Prod.fst = m.map Prod.fst := by
  induction m with
  | nil => rfl
  | cons p t ih =>
    simp only [aupdate, List.map_cons] at ih ⊢
    by_cases hp : p.1 = k <;> simp [hp, ih]

lemma ahas_aupdate (m : List (α × β)) (k k' : α) (f : β → β) :
    ahas (aupdate m k f) k' = ahas m k' := by
  by_cases h : k' = k
  · subst h
    rw [ahas, ahas, aget_update_self]
    cases aget m k' <;> simp
  · simp [ahas, aget_update_ne m k k' f h]

end AssocLemmas

lemma ahas_append_left {α β : Type} [DecidableEq α] {m : List (α × β)} {k : α}
    (h : ahas m k = true) (m' : List (α × β)) : ahas (m ++ m') k = true := by
  rw [ahas] at h
  rcases Option.isSome_iff_exists.mp h with ⟨v, hv⟩
  simp [ahas, aget_append, hv]

lemma aget_append_fresh {α β : Type} [DecidableEq α] {m : List (α × β)} {k : α}
    (h : aget m k = none) (v : β) : aget (m ++ [(k, v)]) k = some v := by
  simp [aget_append, h, aget_cons]

/-- Structural invariant of the parser state: every arena slot stores a
`BlameInfo` whose `hash` is its own key, keys are unique (the map is a
genuine arena with one slot per hash), and every emitted entry's key is
a present, non-sentinel hash. -/
def BaseInv (st : ParseState) : Prop :=
  (∀ p ∈ st.blameMap, p.2.hash = p.1) ∧
  (st.blameMap.map Prod.fst).Nodup ∧
  (∀ e ∈ st.result, ahas st.blameMap e.key = true ∧ e.key ≠ zeroHash)

lemma baseInv_step (st : ParseState) (line : Str) (h : BaseInv st) :
    BaseInv (processLine st line) := by
  obtain ⟨h1, h2, h3⟩ := h
  unfold processLine
  by_cases he : line.isEmpty
  · simpa [he] using ⟨h1, h2, h3⟩
  simp only [he, Bool.false_eq_true, if_false]
  by_cases hhex : isHex40 ((splitOnChar ' ' line).headD [])
  · simp only [hhex, if_true]
    set hash := (splitOnChar ' ' line).headD [] with hh
    set m := (if ahas st.blameMap hash then st.blameMap
              else st.blameMap ++ [(hash, ⟨hash, [], some 0, none⟩)]) with hm
    have hmem : ∀ p ∈ m, p.2.hash = p.1 := by
      rw [hm]
      split
      · exact h1
      · intro p hp
        rcases List.mem_append.mp hp with hp' | hp'
        · exact h1 p hp'
        · simp at hp'
          subst hp'
          rfl
    have hkeys : (m.map Prod.fst).Nodup := by
      rw [hm]
      split
      · exact h2
      · next hnot =>
        have hnone : aget st.blameMap hash = none := by
          rw [ahas] at hnot
          simpa using hnot
        have hnotin : hash ∉ st.blameMap.map Prod.fst := by
          intro hmem'
          rcases List.mem_map.mp hmem' with ⟨p, hp, hpe⟩
          exact (aget_none_iff.mp hnone p hp) hpe
        rw [List.map_append]
        refine List.Nodup.append h2 (List.nodup_singleton _) ?_
        intro x hx hx2
        simp at hx2
        subst hx2
        exact hnotin hx
    have hhasm : ahas m hash = true := by
      rw [hm]
      split
      · next hhas => exact hhas
      · next hnot =>
        have hnone : aget st.blameMap hash = none := by
          rw [ahas] at hnot
          simpa using hnot
        simp [ahas, aget_append_fresh hnone]
    have hmono : ∀ k, ahas st.blameMap k = true → ahas m k = true := by
      intro k hk
      rw [hm]
      split
      · exact hk
      · exact ahas_append_left hk _
    refine ⟨hmem, hkeys, ?_⟩
    intro e hemem
    rcases List.mem_append.mp hemem with hold | hnew
    · exact ⟨hmono _ (h3 e hold).1, (h3 e hold).2⟩
    · have : e.key = hash ∧ hash ≠ zeroHash := by
        by_cases hz : hash ≠ zeroHash
        · rw [if_pos hz] at hnew
          rcases hc : parseIntJS ((splitOnChar ' ' line).getD 3 []) with _ | c
          · rw [hc] at hnew
            simp at hnew
          · rw [hc] at hnew
            simp only [List.mem_map] at hnew
            rcases hnew with ⟨j, _, hje⟩
            subst hje
            exact ⟨rfl, hz⟩
        · rw [if_neg hz] at hnew
          simp at hnew
      rw [this.1]
      exact ⟨hhasm, this.2⟩
  · simp only [hhex, Bool.false_eq_true, if_false]
    rcases hg : aget st.blameMap st.currentHash with _ | info
    · exact ⟨h1, h2, h3⟩
    have hupd : ∀ (f : BlameInfo → BlameInfo), (∀ i, (f i).hash = i.hash) →
        BaseInv { st with blameMap := aupdate st.blameMap st.currentHash f } := by
      intro f hf
      refine ⟨?_, ?_, ?_⟩
      · intro p hp
        rcases List.mem_map.mp hp with ⟨q, hq, hqe⟩
        by_cases hqk : q.1 = st.currentHash
        · rw [if_pos hqk] at hqe
          subst hqe
          simpa [hf] using h1 q hq
        · rw [if_neg hqk] at hqe
          subst hqe
          exact h1 q hq
      · rw [keys_aupdate]
        exact h2
      · intro e hemem
        rw [ahas_aupdate]
        exact h3 e hemem
    by_cases ha : strStarts "author ".data line
    · simp only [ha, if_true]
      exact hupd _ (fun i => rfl)
    by_cases ht : strStarts "author-time ".data line
    · simp only [ha, ht, Bool.false_eq_true, if_false, if_true]
      exact hupd _ (fun i => rfl)
    by_cases hs : strStarts "summary ".data line
    · simp only [ha, ht, hs, Bool.false_eq_true, if_false, if_true]
      exact hupd _ (fun i => rfl)
    · simp only [ha, ht, hs, Bool.false_eq_true, if_false]
      exact ⟨h1, h2, h3⟩

lemma baseInv_parseLines (ls : List Str) (st : ParseState) (h : BaseInv st) :
    BaseInv (parseLines ls st) := by
  induction ls generalizing st with
  | nil => exact h
  | cons l t ih => exact ih _ (baseInv_step st l h)

lemma baseInv_parseState (s : Str) : BaseInv (parseState s) :=
  baseInv_parseLines _ _ ⟨by simp, by simp, by simp⟩

/-- Every line of the final attribution table resolves through the arena:
its `BlameInfo` is exactly the map's slot for its own hash, and that hash
is never the all-zero sentinel. -/
lemma parseBlame_resolved (s : Str) :
    ∀ l ∈ parseBlame s,
      aget (parseState s).blameMap l.info.hash = some l.info ∧ l.info.hash ≠ zeroHash := by
  intro l hl
  obtain ⟨h1, _, h3⟩ := baseInv_parseState s
  rw [parseBlame, finalize] at hl
  rcases List.mem_map.mp hl with ⟨e, he, rfl⟩
  obtain ⟨hhas, hz⟩ := h3 e he
  rw [ahas] at hhas
  rcases Option.isSome_iff_exists.mp hhas with ⟨v, hv⟩
  have hhash : v.hash = e.key := h1 (e.key, v) (mem_of_aget_some hv)
  simp only [hv, Option.getD_some]
  exact ⟨by rw [hhash, hv], by rw [hhash]; exact hz⟩

/-- C1.  For every input stream, no `LineAttribution` carrying the
all-zero 40-character sentinel hash appears in the table returned by the
parse, and a hunk header whose hash is the sentinel contributes no
entries to the result. -/
theorem claim_C1_no_zero_hash (s : Str) :
    (∀ l ∈ parseBlame s, l.info.hash ≠ zeroHash) ∧
    (∀ (st : ParseState) (line : Str),
      (splitOnChar ' ' line).headD [] = zeroHash →
      (processLine st line).result = st.result) := by
  constructor
  · intro l hl
    exact (parseBlame_resolved s l hl).2
  · intro st line hz
    by_cases he : line.isEmpty
    · simp [processLine, he]
    have hx : isHex40 zeroHash = true := by decide
    simp only [List.headD_eq_head?_getD] at hz
    simp [processLine, he, hz, hx]

def wStream : Str :=
  "aaaaaaaaaaaaaaaaaaaaaaaaaaaaaaaaaaaaaaaa 1 1 2\nauthor Bob\nauthor-time 1000\n".data

def wInfoA : BlameInfo := ⟨List.replicate 40 'a', "Bob".data, some 1000, none⟩

theorem claim_C1_no_zero_hash_witness :
    (⟨some 1, wInfoA⟩ : BlameLine) ∈ parseBlame wStream ∧
    (⟨some 1, wInfoA⟩ : BlameLine).info.hash ≠ zeroHash :=
  ⟨by decide, (claim_C1_no_zero_hash wStream).1 _ (by decide)⟩

/-- C5.  The final arena has one slot per hash (its key list has no
duplicates), and any two lines of the final table carrying the same
commit hash carry one and the same `BlameInfo` (the model of reference
equality into the deduplicating `blameMap`). -/
theorem claim_C5_shared_commit_info (s : Str) :
    ((parseState s).blameMap.map Prod.fst).Nodup ∧
    (∀ l₁ ∈ parseBlame s, ∀ l₂ ∈ parseBlame s,
      l₁.info.hash = l₂.info.hash → l₁.info = l₂.info) := by
  refine ⟨(baseInv_parseState s).2.1, ?_⟩
  intro l₁ h₁ l₂ h₂ hh
  have r₁ := (parseBlame_resolved s l₁ h₁).1
  have r₂ := (parseBlame_resolved s l₂ h₂).1
  rw [hh] at r₁
  rw [r₂] at r₁
  exact (Option.some_injective _ r₁).symm

theorem claim_C5_shared_commit_info_witness :
    (⟨some 1, wInfoA⟩ : BlameLine) ∈ parseBlame wStream ∧
    (⟨some 2, wInfoA⟩ : BlameLine) ∈ parseBlame wStream ∧
    (⟨some 1, wInfoA⟩ : BlameLine).info = (⟨some 2, wInfoA⟩ : BlameLine).info :=
  ⟨by decide, by decide,
    (claim_C5_shared_commit_info wStream).2 _ (by decide) _ (by decide) (by decide)⟩

/-- C8.  The parse is a total function (it is a Lean `def`), and a line
that is neither a 40-hex hunk header nor an author / author-time /
summary metadata line applying to an open hash leaves the parser state
exactly as it was. -/
theorem claim_C8_unrecognized_skipped (st : ParseState) (line : Str)
    (hhex : isHex40 ((splitOnChar ' ' line).headD []) = false)
    (hmeta : aget st.blameMap st.currentHash = none ∨
      (strStarts "author ".data line = false ∧
       strStarts "author-time ".data line = false ∧
       strStarts "summary ".data line = false)) :
    processLine st line = st := by
  by_cases he : line.isEmpty
  · simp [processLine, he]
  · simp only [List.headD_eq_head?_getD] at hhex
    rcases hmeta with hm | ⟨ha, ht, hs⟩
    · simp [processLine, he, hhex, hm]
    · rcases hg : aget st.blameMap st.currentHash with _ | i
      · simp [processLine, he, hhex, hg]
      · simp [processLine, he, hhex, hg, ha, ht, hs]

theorem claim_C8_unrecognized_skipped_witness :
    isHex40 ((splitOnChar ' ' "filename foo.ts".data).headD []) = false ∧
    processLine ⟨[], [], []⟩ "filename foo.ts".data = ⟨[], [], []⟩ :=
  ⟨by decide,
    claim_C8_unrecognized_skipped ⟨[], [], []⟩ _ (by decide) (Or.inl (by decide))⟩

/-- A hunk-header line used to refute C10 as stated: its first token is
40 hex characters, its third field is non-numeric (`NaN`), but its
fourth field parses, so the loop `for (let j = 0; j < count; j++)` still
runs and pushes entries whose `line` is `NaN`. -/
def cexLineC10 : Str := "aaaaaaaaaaaaaaaaaaaaaaaaaaaaaaaaaaaaaaaa 1 xx 2".data

theorem claim_C10_counterexample :
    isHex40 ((splitOnChar ' ' cexLineC10).headD []) = true ∧
    parseIntJS ((splitOnChar ' ' cexLineC10).getD 2 []) = none ∧
    (processLine ⟨[], [], []⟩ cexLineC10).result =
      [⟨none, List.replicate 40 'a'⟩, ⟨none, List.replicate 40 'a'⟩] := by
  refine ⟨by decide, by decide, by decide⟩

/-- C10 (amended).  A header line whose first token is 40 hex characters
but whose fourth field (the line count) is missing or non-numeric still
sets that hash as current and creates its `CommitInfo` slot if unseen,
while emitting no entries; suppression of emission depends on the fourth
field only (a non-numeric third field alone yields entries with `NaN`
line numbers, see the counterexample). -/
theorem claim_C10_header_nan_count (st : ParseState) (line : Str) (h : Str)
    (hhead : (splitOnChar ' ' line).headD [] = h)
    (hhex : isHex40 h = true)
    (hcount : parseIntJS ((splitOnChar ' ' line).getD 3 []) = none) :
    (processLine st line).currentHash = h ∧
    (processLine st line).result = st.result ∧
    ahas (processLine st line).blameMap h = true ∧
    (ahas st.blameMap h = false →
      aget (processLine st line).blameMap h = some ⟨h, [], some 0, none⟩) := by
  have he : line.isEmpty = false := by
    cases line with
    | nil =>
      rw [show (splitOnChar ' ' ([] : Str)).headD [] = [] from rfl] at hhead
      rw [← hhead] at hhex
      exact absurd hhex (by decide)
    | cons c cs => rfl
  simp only [List.headD_eq_head?_getD] at hhead
  simp only [List.getD_eq_getElem?_getD] at hcount
  refine ⟨?_, ?_, ?_, ?_⟩
  · simp [processLine, he, hhead, hhex]
  · simp [processLine, he, hhead, hhex, hcount]
  · rcases hg : aget st.blameMap h with _ | v
    · simp [processLine, he, hhead, hhex, ahas, hg, aget_append, aget_cons]
    · simp [processLine, he, hhead, hhex, ahas, hg]
  · intro hhas
    rw [ahas] at hhas
    have hhas' : aget st.blameMap h = none := by
      cases hg : aget st.blameMap h
      · rfl
      · rw [hg] at hhas; simp at hhas
    simp [processLine, he, hhead, hhex, ahas, hhas', aget_append, aget_cons]

def wLineC10 : Str := "aaaaaaaaaaaaaaaaaaaaaaaaaaaaaaaaaaaaaaaa 1 5".data

theorem claim_C10_header_nan_count_witness :
    (processLine ⟨[], [], []⟩ wLineC10).currentHash = List.replicate 40 'a' ∧
    (processLine ⟨[], [], []⟩ wLineC10).result = [] :=
  ⟨(claim_C10_header_nan_count ⟨[], [], []⟩ wLineC10 (List.replicate 40 'a')
      (by decide) (by decide) (by decide)).1,
   (claim_C10_header_nan_count ⟨[], [], []⟩ wLineC10 (List.replicate 40 'a')
      (by decide) (by decide) (by decide)).2.1⟩

lemma minFold_spec (bl : List BlameLine) :
    ∀ (acc : Option Int) (m : Int), bl.foldl minStep acc = some m →
      (acc = some m ∨ ∃ l ∈ bl, l.info.time = some m) ∧
      (∀ a, acc = some a → m ≤ a) ∧
      (∀ l ∈ bl, ∀ v, l.info.time = some v → m ≤ v) := by
  induction bl with
  | nil =>
    intro acc m h
    rw [List.foldl_nil] at h
    refine ⟨Or.inl h, ?_, ?_⟩
    · intro a ha
      rw [h] at ha
      injection ha with ha
      exact le_of_eq ha
    · intro l hl
      exact absurd hl (List.not_mem_nil l)
  | cons x t ih =>
    intro acc m h
    rw [List.foldl_cons] at h
    obtain ⟨hsrc, hacc, hall⟩ := ih (minStep acc x) m h
    rcases ht : x.info.time with _ | tx
    · have hstep : minStep acc x = acc := by simp [minStep, ht]
      rw [hstep] at hsrc hacc
      refine ⟨?_, hacc, ?_⟩
      · rcases hsrc with hs | ⟨l, hl, he⟩
        · exact Or.inl hs
        · exact Or.inr ⟨l, List.mem_cons_of_mem _ hl, he⟩
      · intro l hl v hv
        rcases List.mem_cons.mp hl with rfl | hl'
        · rw [ht] at hv
          exact absurd hv (by simp)
        · exact hall l hl' v hv
    · rcases acc with _ | a0
      · have hstep : minStep none x = some tx := by simp [minStep, ht]
        rw [hstep] at hsrc hacc
        refine ⟨?_, ?_, ?_⟩
        · rcases hsrc with hs | ⟨l, hl, he⟩
          · injection hs with hs
            exact Or.inr ⟨x, List.mem_cons_self _ _, by rw [ht, hs]⟩
          · exact Or.inr ⟨l, List.mem_cons_of_mem _ hl, he⟩
        · intro a ha
          exact absurd ha (by simp)
        · intro l hl v hv
          rcases List.mem_cons.mp hl with rfl | hl'
          · rw [ht] at hv
            injection hv with hv
            rw [← hv]
            exact hacc tx rfl
          · exact hall l hl' v hv
      · by_cases hlt : tx < a0
        · have hstep : minStep (some a0) x = some tx := by
            simp [minStep, ht, hlt]
          rw [hstep] at hsrc hacc
          have hmtx : m ≤ tx := hacc tx rfl
          refine ⟨?_, ?_, ?_⟩
          · rcases hsrc with hs | ⟨l, hl, he⟩
            · injection hs with hs
              exact Or.inr ⟨x, List.mem_cons_self _ _, by rw [ht, hs]⟩
            · exact Or.inr ⟨l, List.mem_cons_of_mem _ hl, he⟩
          · intro a ha
            injection ha with ha
            subst ha
            exact le_trans hmtx (le_of_lt hlt)
          · intro l hl v hv
            rcases List.mem_cons.mp hl with rfl | hl'
            · rw [ht] at hv
              injection hv with hv
              rw [← hv]
              exact hmtx
            · exact hall l hl' v hv
        · have hstep : minStep (some a0) x = some a0 := by
            simp [minStep, ht, hlt]
          rw [hstep] at hsrc hacc
          have hma0 : m ≤ a0 := hacc a0 rfl
          refine ⟨?_, ?_, ?_⟩
          · rcases hsrc with hs | ⟨l, hl, he⟩
            · exact Or.inl (by rw [hs])
            · exact Or.inr ⟨l, List.mem_cons_of_mem _ hl, he⟩
          · intro a ha
            injection ha with ha
            subst ha
            exact hma0
          · intro l hl v hv
            rcases List.mem_cons.mp hl with rfl | hl'
            · rw [ht] at hv
              injection hv with hv
              rw [← hv]
              exact le_trans hma0 (le_of_not_lt hlt)
            · exact hall l hl' v hv

lemma maxFold_spec (bl : List BlameLine) :
    ∀ (acc : Option Int) (M : Int), bl.foldl maxStep acc = some M →
      (acc = some M ∨ ∃ l ∈ bl, l.info.time = some M) ∧
      (∀ a, acc = some a → a ≤ M) ∧
      (∀ l ∈ bl, ∀ v, l.info.time = some v → v ≤ M) := by
  induction bl with
  | nil =>
    intro acc M h
    rw [List.foldl_nil] at h
    refine ⟨Or.inl h, ?_, ?_⟩
    · intro a ha
      rw [h] at ha
      injection ha with ha
      exact le_of_eq ha.symm
    · intro l hl
      exact absurd hl (List.not_mem_nil l)
  | cons x t ih =>
    intro acc M h
    rw [List.foldl_cons] at h
    obtain ⟨hsrc, hacc, hall⟩ := ih (maxStep acc x) M h
    rcases ht : x.info.time with _ | tx
    · have hstep : maxStep acc x = acc := by simp [maxStep, ht]
      rw [hstep] at hsrc hacc
      refine ⟨?_, hacc, ?_⟩
      · rcases hsrc with hs | ⟨l, hl, he⟩
        · exact Or.inl hs
        · exact Or.inr ⟨l, List.mem_cons_of_mem _ hl, he⟩
      · intro l hl v hv
        rcases List.mem_cons.mp hl with rfl | hl'
        · rw [ht] at hv
          exact absurd hv (by simp)
        · exact hall l hl' v hv
    · rcases acc with _ | a0
      · have hstep : maxStep none x = some tx := by simp [maxStep, ht]
        rw [hstep] at hsrc hacc
        refine ⟨?_, ?_, ?_⟩
        · rcases hsrc with hs | ⟨l, hl, he⟩
          · injection hs with hs
            exact Or.inr ⟨x, List.mem_cons_self _ _, by rw [ht, hs]⟩
          · exact Or.inr ⟨l, List.mem_cons_of_mem _ hl, he⟩
        · intro a ha
          exact absurd ha (by simp)
        · intro l hl v hv
          rcases List.mem_cons.mp hl with rfl | hl'
          · rw [ht] at hv
            injection hv with hv
            rw [← hv]
            exact hacc tx rfl
          · exact hall l hl' v hv
      · by_cases hlt : a0 < tx
        · have hstep : maxStep (some a0) x = some tx := by
            simp [maxStep, ht, hlt]
          rw [hstep] at hsrc hacc
          have htxM : tx ≤ M := hacc tx rfl
          refine ⟨?_, ?_, ?_⟩
          · rcases hsrc with hs | ⟨l, hl, he⟩
            · injection hs with hs
              exact Or.inr ⟨x, List.mem_cons_self _ _, by rw [ht, hs]⟩
            · exact Or.inr ⟨l, List.mem_cons_of_mem _ hl, he⟩
          · intro a ha
            injection ha with ha
            subst ha
            exact le_trans (le_of_lt hlt) htxM
          · intro l hl v hv
            rcases List.mem_cons.mp hl with rfl | hl'
            · rw [ht] at hv
              injection hv with hv
              rw [← hv]
              exact htxM
            · exact hall l hl' v hv
        · have hstep : maxStep (some a0) x = some a0 := by
            simp [maxStep, ht, hlt]
          rw [hstep] at hsrc hacc
          have ha0M : a0 ≤ M := hacc a0 rfl
          refine ⟨?_, ?_, ?_⟩
          · rcases hsrc with hs | ⟨l, hl, he⟩
            · exact Or.inl (by rw [hs])
            · exact Or.inr ⟨l, List.mem_cons_of_mem _ hl, he⟩
          · intro a ha
            injection ha with ha
            subst ha
            exact ha0M
          · intro l hl v hv
            rcases List.mem_cons.mp hl with rfl | hl'
            · rw [ht] at hv
              injection hv with hv
              rw [← hv]
              exact le_trans (le_of_not_lt hlt) ha0M
            · exact hall l hl' v hv

/-- The attribution table used to refute C2 as stated: line 1 carries
timestamp 0 and lines 2 and 3 carry 100 and 200. -/
def cexTableC2 : List BlameLine :=
  [⟨some 1, ⟨List.replicate 40 'a', "a".data, some 0, none⟩⟩,
   ⟨some 2, ⟨List.replicate 40 'b', "b".data, some 100, none⟩⟩,
   ⟨some 3, ⟨List.replicate 40 'c', "c".data, some 200, none⟩⟩]

/-- The same table with the timestamp-0 line removed. -/
def cexTableC2' : List BlameLine := cexTableC2.drop 1

theorem claim_C2_counterexample :
    minTimeOf cexTableC2 = some 0 ∧
    heatRatio (minTimeOf cexTableC2) (maxTimeOf cexTableC2) 100 = 1 / 2 ∧
    heatRatio (minTimeOf cexTableC2') (maxTimeOf cexTableC2') 100 = 1 := by
  have hmn : minTimeOf cexTableC2 = some 0 := by decide
  have hmx : maxTimeOf cexTableC2 = some 200 := by decide
  have hmn' : minTimeOf cexTableC2' = some 100 := by decide
  have hmx' : maxTimeOf cexTableC2' = some 200 := by decide
  refine ⟨hmn, ?_, ?_⟩
  · rw [hmn, hmx]
    norm_num [heatRatio]
  · rw [hmn', hmx']
    norm_num [heatRatio]

/-- C2 (amended).  The scan computes `minTime` / `maxTime` over the
timestamps of all attributed lines — timestamp 0 included, only `NaN`
timestamps never update the accumulators — and when the scan leaves
`minTime` at its `Infinity` seed (`none`), every ratio is 0. -/
theorem claim_C2_minmax_over_all_lines (bl : List BlameLine) :
    (∀ m, minTimeOf bl = some m →
      (∃ l ∈ bl, l.info.time = some m) ∧
      (∀ l ∈ bl, ∀ v, l.info.time = some v → m ≤ v)) ∧
    (∀ M, maxTimeOf bl = some M →
      (∃ l ∈ bl, l.info.time = some M) ∧
      (∀ l ∈ bl, ∀ v, l.info.time = some v → v ≤ M)) ∧
    (minTimeOf bl = none → ∀ t, heatRatio (minTimeOf bl) (maxTimeOf bl) t = 0) := by
  refine ⟨?_, ?_, ?_⟩
  · intro m h
    obtain ⟨hsrc, _, hall⟩ := minFold_spec bl none m h
    rcases hsrc with hs | hs
    · exact absurd hs (by simp)
    · exact ⟨hs, hall⟩
  · intro M h
    obtain ⟨hsrc, _, hall⟩ := maxFold_spec bl none M h
    rcases hsrc with hs | hs
    · exact absurd hs (by simp)
    · exact ⟨hs, hall⟩
  · intro h t
    rw [h]
    cases hmx : maxTimeOf bl <;> rfl

theorem claim_C2_minmax_over_all_lines_witness :
    (∃ l ∈ cexTableC2, l.info.time = some 0) ∧
    (∀ l ∈ cexTableC2, ∀ v, l.info.time = some v → 0 ≤ v) :=
  (claim_C2_minmax_over_all_lines cexTableC2).1 0 (by decide)

/-- C3.  With a defined scan range `[m, M]`, the heat ratio of a line
whose timestamp equals `M` is 0, the ratio at `m` is 1 whenever the
range is non-degenerate, and a degenerate range `M = m` yields ratio 0
for every timestamp instead of a division error. -/
theorem claim_C3_ratio_extremes (bl : List BlameLine) (m M : Int)
    (hmn : minTimeOf bl = some m) (hmx : maxTimeOf bl = some M) :
    heatRatio (minTimeOf bl) (maxTimeOf bl) M = 0 ∧
    (M ≠ m → heatRatio (minTimeOf bl) (maxTimeOf bl) m = 1) ∧
    (M = m → ∀ t, heatRatio (minTimeOf bl) (maxTimeOf bl) t = 0) := by
  rw [hmn, hmx]
  refine ⟨?_, ?_, ?_⟩
  · by_cases h : M = m <;> simp [heatRatio, h]
  · intro h
    have hne : (M : ℚ) - (m : ℚ) ≠ 0 := by
      rw [sub_ne_zero]
      exact_mod_cast h
    simp [heatRatio, h, div_self hne]
  · intro h
    simp [heatRatio, h]

theorem claim_C3_ratio_extremes_witness :
    heatRatio (minTimeOf cexTableC2') (maxTimeOf cexTableC2') 200 = 0 ∧
    heatRatio (minTimeOf cexTableC2') (maxTimeOf cexTableC2') 100 = 1 :=
  ⟨(claim_C3_ratio_extremes cexTableC2' 100 200 (by decide) (by decide)).1,
   (claim_C3_ratio_extremes cexTableC2' 100 200 (by decide) (by decide)).2.1 (by decide)⟩

lemma renderFor_placeholder_iff (mn mx : Option Int) (isDark : Bool) (tz : Int)
    (o : Option BlameInfo) :
    renderFor mn mx isDark tz o = placeholderIns ↔
      ¬ ∃ info t, o = some info ∧ info.time = some t ∧ 0 < t := by
  rcases o with _ | info
  · simp [renderFor]
  · rcases htime : info.time with _ | t
    · simp [renderFor, htime]
    · by_cases hpos : 0 < t
      · simp only [renderFor, htime, hpos, if_true]
        constructor
        · intro h
          exact absurd (congrArg RenderInstruction.color h) (by simp [placeholderIns])
        · intro h
          exact absurd ⟨info, t, rfl, htime, hpos⟩ h
      · simp [renderFor, htime, hpos]

/-- C7 (amended).  `applyDecorations` yields exactly one instruction per
line index `0 .. totalLines - 1` in order, and the instruction at index
`i` is the blank transparent placeholder exactly when the table has no
entry for document line `i + 1` or the entry's timestamp is not strictly
positive (zero, negative, or `NaN`). -/
theorem claim_C7_one_instruction_per_line (bl : List BlameLine) (n : Nat)
    (isDark : Bool) (tz : Int) :
    (applyDecorations bl n isDark tz).length = n ∧
    (∀ i, i < n →
      ((applyDecorations bl n isDark tz).getD i placeholderIns = placeholderIns ↔
        ¬ ∃ info t, aget (lineToBlame bl) (some (i : Int)) = some info ∧
            info.time = some t ∧ 0 < t)) := by
  have happ : applyDecorations bl n isDark tz =
      (List.range n).map (fun (i : Nat) => renderFor (minTimeOf bl) (maxTimeOf bl) isDark tz
        (aget (lineToBlame bl) (some (Int.ofNat i)))) := rfl
  constructor
  · rw [happ, List.length_map, List.length_range]
  · intro i hi
    have hidx : (applyDecorations bl n isDark tz).getD i placeholderIns =
        renderFor (minTimeOf bl) (maxTimeOf bl) isDark tz
          (aget (lineToBlame bl) (some (i : Int))) := by
      rw [happ, List.getD_eq_getElem?_getD, List.getElem?_map, List.getElem?_range hi]
      rfl
    rw [hidx]
    exact renderFor_placeholder_iff _ _ _ _ _

theorem claim_C7_one_instruction_per_line_witness :
    (applyDecorations cexTableC2' 3 false 0).length = 3 ∧
    ((applyDecorations cexTableC2' 3 false 0).getD 0 placeholderIns = placeholderIns ↔
      ¬ ∃ info t, aget (lineToBlame cexTableC2') (some ((0 : Nat) : Int)) = some info ∧
          info.time = some t ∧ 0 < t) :=
  ⟨(claim_C7_one_instruction_per_line cexTableC2' 3 false 0).1,
   (claim_C7_one_instruction_per_line cexTableC2' 3 false 0).2 0 (by decide)⟩

/-- A table whose only line is attributed with a negative timestamp,
refuting C7 as stated: the instruction is the placeholder although an
attribution exists and its timestamp is not 0. -/
def cexTableC7 : List BlameLine :=
  [⟨some 1, ⟨List.replicate 40 'a', "a".data, some (-5), none⟩⟩]

theorem claim_C7_counterexample :
    applyDecorations cexTableC7 1 false 0 = [placeholderIns] ∧
    aget (lineToBlame cexTableC7) (some 0) =
      some ⟨List.replicate 40 'a', "a".data, some (-5), none⟩ ∧
    (⟨List.replicate 40 'a', "a".data, some (-5), none⟩ : BlameInfo).time ≠ some 0 := by
  refine ⟨by decide, by decide, by decide⟩

/-- C9.  An attributed line with positive timestamp and empty author
string renders with the fallback name `'Unknown'` truncated to
`"Unknow"`, not with six padded spaces. -/
theorem claim_C9_empty_author_fallback (mn mx : Option Int) (isDark : Bool)
    (tz : Int) (h : Str) (sm : Option Str) (t : Int) (ht : 0 < t) :
    (renderFor mn mx isDark tz (some ⟨h, [], some t, sm⟩)).contentText =
      dateChars tz t ++ ' ' :: "Unknow".data ∧
    (renderFor mn mx isDark tz (some ⟨h, [], some t, sm⟩)).contentText ≠
      dateChars tz t ++ ' ' :: List.replicate 6 ' ' := by
  have hA : authorDisplay [] = "Unknow".data := by decide
  constructor
  · simp [renderFor, ht, labelText, hA]
  · simp [renderFor, ht, labelText, hA]

lemma civil_bounds (doe yoe doy mp : Nat)
    (h1 : doe ≤ 146096)
    (h2 : yoe = (doe - doe / 1460 + doe / 36524 - doe / 146096) / 365)
    (h3 : doy = doe - (365 * yoe + yoe / 4 - yoe / 100))
    (h4 : mp = (5 * doy + 2) / 153) :
    doy ≤ 465 ∧ mp ≤ 15 ∧
    1 ≤ doy - (153 * mp + 2) / 5 + 1 ∧ doy - (153 * mp + 2) / 5 + 1 ≤ 31 := by
  omega

/-- The month and day produced by `civilFromDays` always lie in `[1, 12]`
and `[1, 31]`. -/
lemma civilFromDays_month_day (z : Int) :
    1 ≤ (civilFromDays z).2.1 ∧ (civilFromDays z).2.1 ≤ 12 ∧
    1 ≤ (civilFromDays z).2.2 ∧ (civilFromDays z).2.2 ≤ 31 := by
  unfold civilFromDays
  dsimp only
  generalize (z + 719468).toNat = n
  have hdoe : n % 146097 ≤ 146096 := Nat.le_of_lt_succ (Nat.mod_lt _ (by norm_num))
  obtain ⟨hdoy, hmp, hd1, hd2⟩ := civil_bounds (n % 146097) _ _ _ hdoe rfl rfl rfl
  refine ⟨?_, ?_, hd1, hd2⟩ <;>
    by_cases h10 : (5 * (n % 146097 -
        (365 * ((n % 146097 - n % 146097 / 1460 + n % 146097 / 36524 -
          n % 146097 / 146096) / 365) +
         (n % 146097 - n % 146097 / 1460 + n % 146097 / 36524 -
          n % 146097 / 146096) / 365 / 4 -
         (n % 146097 - n % 146097 / 1460 + n % 146097 / 36524 -
          n % 146097 / 146096) / 365 / 100)) + 2) / 153 < 10 <;>
    simp only [h10, if_true, if_false] <;> omega

lemma pad2_natToChars_two (k : Nat) (h1 : 1 ≤ k) (h2 : k ≤ 31) :
    (pad2 (natToChars k)).length = 2 := by
  interval_cases k <;> decide

lemma authorDisplay_length (a : Str) : (authorDisplay a).length = 6 := by
  rcases a with _ | ⟨c, cs⟩
  · decide
  · rw [authorDisplay]
    simp only [List.isEmpty_cons, if_false, Bool.false_eq_true]
    by_cases h6 : 6 < (c :: cs).length
    · rw [if_pos h6, List.length_take]
      omega
    · rw [if_neg h6, List.length_append, List.length_replicate]
      omega

/-- C6 (amended).  For an attributed line with positive timestamp and a
non-empty author name, the rendered label is the local-time calendar
date `YYYY/MM/DD` (month and day zero-padded to exactly two digits), a
space, and the author name truncated to 6 characters if longer than 6
and right-padded with spaces to 6 otherwise; the total label length does
not depend on the author name.  (An empty author name is first replaced
by the fallback `'Unknown'`; see the counterexample and C9.) -/
theorem claim_C6_label_format (mn mx : Option Int) (isDark : Bool) (tz : Int)
    (h : Str) (a : Str) (sm : Option Str) (t : Int) (ht : 0 < t) (ha : a ≠ []) :
    (∃ y m d, civilFromDays (Int.fdiv (t + tz) 86400) = (y, m, d) ∧
      (renderFor mn mx isDark tz (some ⟨h, a, some t, sm⟩)).contentText =
        intToChars y ++ '/' :: (pad2 (natToChars m) ++ '/' :: (pad2 (natToChars d) ++
          ' ' :: (if 6 < a.length then a.take 6
                  else a ++ List.replicate (6 - a.length) ' '))) ∧
      (pad2 (natToChars m)).length = 2 ∧
      (pad2 (natToChars d)).length = 2) ∧
    (∀ a' : Str,
      (renderFor mn mx isDark tz (some ⟨h, a', some t, sm⟩)).contentText.length =
        (dateChars tz t).length + 7) := by
  have hae : a.isEmpty = false := by
    cases a with
    | nil => exact absurd rfl ha
    | cons c cs => rfl
  constructor
  · refine ⟨(civilFromDays (Int.fdiv (t + tz) 86400)).1,
      (civilFromDays (Int.fdiv (t + tz) 86400)).2.1,
      (civilFromDays (Int.fdiv (t + tz) 86400)).2.2, ?_, ?_, ?_, ?_⟩
    · simp
    · simp [renderFor, ht, labelText, dateChars, authorDisplay, hae, List.append_assoc]
    · exact pad2_natToChars_two _ (civilFromDays_month_day _).1
        (le_trans (civilFromDays_month_day _).2.1 (by norm_num))
    · exact pad2_natToChars_two _ (civilFromDays_month_day _).2.2.1
        (civilFromDays_month_day _).2.2.2
  · intro a'
    have hct : (renderFor mn mx isDark tz (some ⟨h, a', some t, sm⟩)).contentText =
        labelText tz t a' := by
      simp [renderFor, ht]
    rw [hct, labelText, List.length_append, List.length_cons, authorDisplay_length]

theorem claim_C6_label_format_witness :
    (renderFor (some 1700000000) (some 1700000000) false 0
        (some ⟨List.replicate 40 'a', "Al".data, some 1700000000, none⟩)).contentText.length =
      (dateChars 0 1700000000).length + 7 :=
  (claim_C6_label_format (some 1700000000) (some 1700000000) false 0
    (List.replicate 40 'a') "Alexandria".data none 1700000000
    (by decide) (by decide)).2 "Al".data

theorem claim_C6_counterexample :
    (renderFor (some 1700000000) (some 1700000000) false 0
        (some ⟨List.replicate 40 'a', [], some 1700000000, none⟩)).contentText =
      "2023/11/14 Unknow".data ∧
    (renderFor (some 1700000000) (some 1700000000) false 0
        (some ⟨List.replicate 40 'a', [], some 1700000000, none⟩)).contentText ≠
      "2023/11/14       ".data := by
  refine ⟨by decide, by decide⟩

theorem claim_C9_empty_author_fallback_witness :
    (renderFor (some 1000) (some 1000) false 0
        (some ⟨List.replicate 40 'a', [], some 1000, none⟩)).contentText =
      dateChars 0 1000 ++ ' ' :: "Unknow".data :=
  (claim_C9_empty_author_fallback (some 1000) (some 1000) false 0
    (List.replicate 40 'a') none 1000 (by decide)).1

lemma processLine_header_cur (st : ParseState) (line : Str)
    (he : line.isEmpty = false)
    (hhex : isHex40 ((splitOnChar ' ' line).headD []) = true) :
    (processLine st line).currentHash = (splitOnChar ' ' line).headD [] := by
  simp only [List.headD_eq_head?_getD] at hhex ⊢
  simp [processLine, he, hhex]

lemma processLine_header_map (st : ParseState) (line : Str)
    (he : line.isEmpty = false)
    (hhex : isHex40 ((splitOnChar ' ' line).headD []) = true) :
    (processLine st line).blameMap =
      (if ahas st.blameMap ((splitOnChar ' ' line).headD []) then st.blameMap
       else st.blameMap ++ [((splitOnChar ' ' line).headD [],
         ⟨(splitOnChar ' ' line).headD [], [], some 0, none⟩)]) := by
  simp only [List.headD_eq_head?_getD] at hhex ⊢
  by_cases hh : ahas st.blameMap ((splitOnChar ' ' line).head?.getD []) = true
  · simp [processLine, he, hhex, hh]
  · rw [Bool.not_eq_true] at hh
    simp [processLine, he, hhex, hh]

lemma processLine_meta_none (st : ParseState) (line : Str)
    (he : line.isEmpty = false)
    (hhex : isHex40 ((splitOnChar ' ' line).headD []) = false)
    (hg : aget st.blameMap st.currentHash = none) :
    processLine st line = st := by
  simp only [List.headD_eq_head?_getD] at hhex
  simp [processLine, he, hhex, hg]

lemma processLine_meta_cur (st : ParseState) (line : Str)
    (he : line.isEmpty = false)
    (hhex : isHex40 ((splitOnChar ' ' line).headD []) = false) :
    (processLine st line).currentHash = st.currentHash := by
  simp only [List.headD_eq_head?_getD] at hhex
  rcases hg : aget st.blameMap st.currentHash with _ | i
  · simp [processLine, he, hhex, hg]
  · by_cases ha : strStarts "author ".data line = true
    · simp [processLine, he, hhex, hg, ha]
    · by_cases ht : strStarts "author-time ".data line = true
      · simp [processLine, he, hhex, hg, ha, ht]
      · by_cases hs : strStarts "summary ".data line = true <;>
          simp [processLine, he, hhex, hg, ha, ht, hs]

lemma processLine_meta_result (st : ParseState) (line : Str)
    (he : line.isEmpty = false)
    (hhex : isHex40 ((splitOnChar ' ' line).headD []) = false) :
    (processLine st line).result = st.result := by
  simp only [List.headD_eq_head?_getD] at hhex
  rcases hg : aget st.blameMap st.currentHash with _ | i
  · simp [processLine, he, hhex, hg]
  · by_cases ha : strStarts "author ".data line = true
    · simp [processLine, he, hhex, hg, ha]
    · by_cases ht : strStarts "author-time ".data line = true
      · simp [processLine, he, hhex, hg, ha, ht]
      · by_cases hs : strStarts "summary ".data line = true <;>
          simp [processLine, he, hhex, hg, ha, ht, hs]

lemma processLine_author (st : ParseState) (line : Str) (i : BlameInfo)
    (he : line.isEmpty = false)
    (hhex : isHex40 ((splitOnChar ' ' line).headD []) = false)
    (hg : aget st.blameMap st.currentHash = some i)
    (ha : strStarts "author ".data line = true) :
    (processLine st line).blameMap =
      aupdate st.blameMap st.currentHash
        (fun j => { j with author := jsTrim (line.drop 7) }) := by
  simp only [List.headD_eq_head?_getD] at hhex
  simp [processLine, he, hhex, hg, ha]

lemma processLine_atime (st : ParseState) (line : Str) (i : BlameInfo)
    (he : line.isEmpty = false)
    (hhex : isHex40 ((splitOnChar ' ' line).headD []) = false)
    (hg : aget st.blameMap st.currentHash = some i)
    (ha : strStarts "author ".data line = false)
    (ht : strStarts "author-time ".data line = true) :
    (processLine st line).blameMap =
      aupdate st.blameMap st.currentHash
        (fun j => { j with time := parseIntJS (jsTrim (line.drop 12)) }) := by
  simp only [List.headD_eq_head?_getD] at hhex
  simp [processLine, he, hhex, hg, ha, ht]

lemma processLine_summary (st : ParseState) (line : Str) (i : BlameInfo)
    (he : line.isEmpty = false)
    (hhex : isHex40 ((splitOnChar ' ' line).headD []) = false)
    (hg : aget st.blameMap st.currentHash = some i)
    (ha : strStarts "author ".data line = false)
    (ht : strStarts "author-time ".data line = false)
    (hs : strStarts "summary ".data line = true) :
    (processLine st line).blameMap =
      aupdate st.blameMap st.currentHash
        (fun j => { j with summary := some (jsTrim (line.drop 8)) }) := by
  simp only [List.headD_eq_head?_getD] at hhex
  simp [processLine, he, hhex, hg, ha, ht, hs]

lemma processLine_other (st : ParseState) (line : Str)
    (he : line.isEmpty = false)
    (hhex : isHex40 ((splitOnChar ' ' line).headD []) = false)
    (ha : strStarts "author ".data line = false)
    (ht : strStarts "author-time ".data line = false)
    (hs : strStarts "summary ".data line = false) :
    processLine st line = st := by
  simp only [List.headD_eq_head?_getD] at hhex
  rcases hg : aget st.blameMap st.currentHash with _ | i <;>
    simp [processLine, he, hhex, hg, ha, ht, hs]

/-- Specification-side scan state for one hash `H`: the hash most
recently opened by a hunk-header line, and the payloads of the last
author / author-time / summary lines seen while `H` was the open hash. -/
structure MetaAcc where
  cur : Str
  lastAuthor : Option Str
  lastTime : Option Str
  lastSummary : Option Str
deriving DecidableEq, Repr

/-- Specification-side scan step, following the spec's words: "metadata
lines always apply to whichever hash was most recently opened by a hunk
header". -/
def metaStep (H : Str) (a : MetaAcc) (line : Str) : MetaAcc :=
  if line.isEmpty then a
  else if isHex40 ((splitOnChar ' ' line).headD []) then
    { a with cur := (splitOnChar ' ' line).headD [] }
  else if a.cur = H then
    if strStarts "author ".data line then
      { a with lastAuthor := some (jsTrim (line.drop 7)) }
    else if strStarts "author-time ".data line then
      { a with lastTime := some (jsTrim (line.drop 12)) }
    else if strStarts "summary ".data line then
      { a with lastSummary := some (jsTrim (line.drop 8)) }
    else a
  else a

/-- The scan over a whole list of protocol lines. -/
def metaOf (H : Str) (ls : List Str) : MetaAcc :=
  ls.foldl (metaStep H) ⟨[], none, none, none⟩

/-- Simulation invariant between the parser state and the
specification-side scan for hash `H`. -/
def MetaInv (H : Str) (st : ParseState) (a : MetaAcc) : Prop :=
  a.cur = st.currentHash ∧
  (st.currentHash = H → ahas st.blameMap H = true) ∧
  (∀ x, a.lastAuthor = some x →
    (aget st.blameMap H).map BlameInfo.author = some x) ∧
  (∀ x, a.lastTime = some x →
    (aget st.blameMap H).map BlameInfo.time = some (parseIntJS x)) ∧
  (∀ x, a.lastSummary = some x →
    (aget st.blameMap H).map BlameInfo.summary = some (some x))

lemma metaInv_step (H : Str) (st : ParseState) (a : MetaAcc) (line : Str)
    (h : MetaInv H st a) : MetaInv H (processLine st line) (metaStep H a line) := by
  obtain ⟨hcur, hhas, hA, hT, hS⟩ := h
  by_cases he' : line.isEmpty = true
  · have h1 : processLine st line = st := by simp [processLine, he']
    have h2 : metaStep H a line = a := by simp [metaStep, he']
    rw [h1, h2]
    exact ⟨hcur, hhas, hA, hT, hS⟩
  have he : line.isEmpty = false := by
    rw [Bool.not_eq_true] at he'
    exact he'
  by_cases hhex : isHex40 ((splitOnChar ' ' line).headD []) = true
  · -- hunk header: both sides move `cur` to the new hash
    have hhex2 : isHex40 ((splitOnChar ' ' line).head?.getD []) = true := by
      rw [← List.headD_eq_head?_getD]
      exact hhex
    have hm : metaStep H a line = { a with cur := (splitOnChar ' ' line).headD [] } := by
      simp [metaStep, he, hhex, hhex2, List.headD_eq_head?_getD]
    have hc := processLine_header_cur st line he hhex
    have hmap := processLine_header_map st line he hhex
    have hpres : ∀ w, aget st.blameMap H = some w →
        aget (processLine st line).blameMap H = some w := by
      intro w hw
      rw [hmap]
      split
      · exact hw
      · rw [aget_append, hw]
        rfl
    refine ⟨by rw [hm, hc], ?_, ?_, ?_, ?_⟩
    · intro hH'
      rw [hc] at hH'
      rw [hmap, hH']
      split
      · next hh => exact hh
      · next hh =>
        rw [Bool.not_eq_true, ahas] at hh
        have : aget st.blameMap H = none := by
          cases hg : aget st.blameMap H
          · rfl
          · rw [hg] at hh
            simp at hh
        simp [ahas, aget_append_fresh this]
    · intro x hx
      rw [hm] at hx
      rcases Option.map_eq_some'.mp (hA x hx) with ⟨w, hw, hwa⟩
      rw [hpres w hw]
      simpa using hwa
    · intro x hx
      rw [hm] at hx
      rcases Option.map_eq_some'.mp (hT x hx) with ⟨w, hw, hwa⟩
      rw [hpres w hw]
      simpa using hwa
    · intro x hx
      rw [hm] at hx
      rcases Option.map_eq_some'.mp (hS x hx) with ⟨w, hw, hwa⟩
      rw [hpres w hw]
      simpa using hwa
  · -- not a header
    have hhexF : isHex40 ((splitOnChar ' ' line).headD []) = false := by
      rw [Bool.not_eq_true] at hhex
      exact hhex
    have hhexF2 : isHex40 ((splitOnChar ' ' line).head?.getD []) = false := by
      rw [← List.headD_eq_head?_getD]
      exact hhexF
    have hcur' := processLine_meta_cur st line he hhexF
    rcases hg : aget st.blameMap st.currentHash with _ | i
    · -- no open record: parser skips; spec cannot be in an `H` region
      have h1 : processLine st line = st := processLine_meta_none st line he hhexF hg
      have hne : a.cur = H → False := by
        intro hq
        rw [hcur] at hq
        rw [hq] at hg
        have := hhas hq
        rw [ahas, hg] at this
        simp at this
      have h2 : metaStep H a line = a := by
        by_cases hq : a.cur = H
        · exact absurd hq (fun hq' => hne hq')
        · simp [metaStep, he, hhexF, hhexF2, hq]
      rw [h1, h2]
      exact ⟨hcur, hhas, hA, hT, hS⟩
    · by_cases hq : st.currentHash = H
      · -- metadata applies to H itself
        have hqa : a.cur = H := by rw [hcur, hq]
        have hgH : aget st.blameMap H = some i := by rw [← hq]; exact hg
        by_cases ha : strStarts "author ".data line = true
        · have h1 := processLine_author st line i he hhexF hg ha
          have h2 : metaStep H a line =
              { a with lastAuthor := some (jsTrim (line.drop 7)) } := by
            simp [metaStep, he, hhexF, hhexF2, hqa, ha]
          refine ⟨?_, ?_, ?_, ?_, ?_⟩
          · rw [h2, hcur', hcur]
          · intro hq2
            rw [hcur'] at hq2
            rw [h1, ahas_aupdate]
            exact hhas hq2
          · intro x hx
            rw [h2] at hx
            simp only at hx
            injection hx with hx
            rw [h1, hq, aget_update_self, hgH, ← hx]
            rfl
          · intro x hx
            rw [h2] at hx
            simp only at hx
            rw [h1, hq, aget_update_self, hgH]
            have := hT x hx
            rw [hgH] at this
            simpa using this
          · intro x hx
            rw [h2] at hx
            simp only at hx
            rw [h1, hq, aget_update_self, hgH]
            have := hS x hx
            rw [hgH] at this
            simpa using this
        · have haF : strStarts "author ".data line = false := by
            rw [Bool.not_eq_true] at ha
            exact ha
          by_cases ht : strStarts "author-time ".data line = true
          · have h1 := processLine_atime st line i he hhexF hg haF ht
            have h2 : metaStep H a line =
                { a with lastTime := some (jsTrim (line.drop 12)) } := by
              simp [metaStep, he, hhexF, hhexF2, hqa, haF, ht]
            refine ⟨?_, ?_, ?_, ?_, ?_⟩
            · rw [h2, hcur', hcur]
            · intro hq2
              rw [hcur'] at hq2
              rw [h1, ahas_aupdate]
              exact hhas hq2
            · intro x hx
              rw [h2] at hx
              simp only at hx
              rw [h1, hq, aget_update_self, hgH]
              have := hA x hx
              rw [hgH] at this
              simpa using this
            · intro x hx
              rw [h2] at hx
              simp only at hx
              injection hx with hx
              rw [h1, hq, aget_update_self, hgH, ← hx]
              rfl
            · intro x hx
              rw [h2] at hx
              simp only at hx
              rw [h1, hq, aget_update_self, hgH]
              have := hS x hx
              rw [hgH] at this
              simpa using this
          · have htF : strStarts "author-time ".data line = false := by
              rw [Bool.not_eq_true] at ht
              exact ht
            by_cases hs : strStarts "summary ".data line = true
            · have h1 := processLine_summary st line i he hhexF hg haF htF hs
              have h2 : metaStep H a line =
                  { a with lastSummary := some (jsTrim (line.drop 8)) } := by
                simp [metaStep, he, hhexF, hhexF2, hqa, haF, htF, hs]
              refine ⟨?_, ?_, ?_, ?_, ?_⟩
              · rw [h2, hcur', hcur]
              · intro hq2
                rw [hcur'] at hq2
                rw [h1, ahas_aupdate]
                exact hhas hq2
              · intro x hx
                rw [h2] at hx
                simp only at hx
                rw [h1, hq, aget_update_self, hgH]
                have := hA x hx
                rw [hgH] at this
                simpa using this
              · intro x hx
                rw [h2] at hx
                simp only at hx
                rw [h1, hq, aget_update_self, hgH]
                have := hT x hx
                rw [hgH] at this
                simpa using this
              · intro x hx
                rw [h2] at hx
                simp only at hx
                injection hx with hx
                rw [h1, hq, aget_update_self, hgH, ← hx]
                rfl
            · have hsF : strStarts "summary ".data line = false := by
                rw [Bool.not_eq_true] at hs
                exact hs
              have h1 := processLine_other st line he hhexF haF htF hsF
              have h2 : metaStep H a line = a := by
                simp [metaStep, he, hhexF, hhexF2, hqa, haF, htF, hsF]
              rw [h1, h2]
              exact ⟨hcur, hhas, hA, hT, hS⟩
      · -- metadata applies to some other hash: the slot for H is untouched
        have hqa : (a.cur = H) = False := by
          rw [hcur]
          simp [hq]
        have h2 : metaStep H a line = a := by
          simp [metaStep, he, hhexF, hhexF2, hqa]
        have hagetH : ∀ f, aget (aupdate st.blameMap st.currentHash f) H =
            aget st.blameMap H := by
          intro f
          exact aget_update_ne st.blameMap st.currentHash H f (fun hh => hq hh.symm)
        have hmaps : aget (processLine st line).blameMap H = aget st.blameMap H := by
          by_cases ha : strStarts "author ".data line = true
          · rw [processLine_author st line i he hhexF hg ha, hagetH]
          · have haF : strStarts "author ".data line = false := by
              rw [Bool.not_eq_true] at ha
              exact ha
            by_cases ht : strStarts "author-time ".data line = true
            · rw [processLine_atime st line i he hhexF hg haF ht, hagetH]
            · have htF : strStarts "author-time ".data line = false := by
                rw [Bool.not_eq_true] at ht
                exact ht
              by_cases hs : strStarts "summary ".data line = true
              · rw [processLine_summary st line i he hhexF hg haF htF hs, hagetH]
              · have hsF : strStarts "summary ".data line = false := by
                  rw [Bool.not_eq_true] at hs
                  exact hs
                rw [processLine_other st line he hhexF haF htF hsF]
        refine ⟨?_, ?_, ?_, ?_, ?_⟩
        · rw [h2, hcur', hcur]
        · intro hq2
          rw [hcur'] at hq2
          exact absurd hq2 hq
        · intro x hx
          rw [h2] at hx
          rw [hmaps]
          exact hA x hx
        · intro x hx
          rw [h2] at hx
          rw [hmaps]
          exact hT x hx
        · intro x hx
          rw [h2] at hx
          rw [hmaps]
          exact hS x hx

lemma metaInv_fold (H : Str) (ls : List Str) (st : ParseState) (a : MetaAcc)
    (h : MetaInv H st a) : MetaInv H (parseLines ls st) (ls.foldl (metaStep H) a) := by
  induction ls generalizing st a with
  | nil => exact h
  | cons l t ih => exact ih _ _ (metaInv_step H st a l h)

/-- C4.  Metadata lines apply to the hash most recently opened by a hunk
header: for any hash `H`, the parser's final `CommitInfo` for `H`
carries exactly the value of the last author / author-time / summary
line encountered while `H` was the open hash (as computed by the
specification-side scan `metaOf`), no matter how many hunks for other
hashes intervene between `H`'s header and that metadata line. -/
theorem claim_C4_metadata_most_recent_hash (s : Str) (H : Str)
    (hH : isHex40 H = true) :
    (∀ x, (metaOf H (splitOnChar '\n' s)).lastAuthor = some x →
      (aget (parseState s).blameMap H).map BlameInfo.author = some x) ∧
    (∀ x, (metaOf H (splitOnChar '\n' s)).lastTime = some x →
      (aget (parseState s).blameMap H).map BlameInfo.time = some (parseIntJS x)) ∧
    (∀ x, (metaOf H (splitOnChar '\n' s)).lastSummary = some x →
      (aget (parseState s).blameMap H).map BlameInfo.summary = some (some x)) := by
  have h0 : MetaInv H ⟨[], [], []⟩ ⟨[], none, none, none⟩ := by
    refine ⟨rfl, ?_, ?_, ?_, ?_⟩
    · intro hc
      rw [← hc] at hH
      exact absurd hH (by decide)
    · intro x hx
      exact absurd hx (by simp)
    · intro x hx
      exact absurd hx (by simp)
    · intro x hx
      exact absurd hx (by simp)
  have hfold := metaInv_fold H (splitOnChar '\n' s) ⟨[], [], []⟩ ⟨[], none, none, none⟩ h0
  exact ⟨hfold.2.2.1, hfold.2.2.2.1, hfold.2.2.2.2⟩

/-- A stream interleaving hunks of two hashes; the metadata for the hash
of 40 `'c'`s arrives after an intervening hunk (and metadata) for the
hash of 40 `'b'`s. -/
def wStreamC4 : Str :=
  ("cccccccccccccccccccccccccccccccccccccccc 1 1 1\n" ++
   "bbbbbbbbbbbbbbbbbbbbbbbbbbbbbbbbbbbbbbbb 1 2 1\n" ++
   "author other\n" ++
   "cccccccccccccccccccccccccccccccccccccccc 1 3 1\n" ++
   "author-time 99\n" ++
   "author hans\n").data

set_option maxRecDepth 8192 in
theorem claim_C4_metadata_most_recent_hash_witness :
    (aget (parseState wStreamC4).blameMap (List.replicate 40 'c')).map BlameInfo.author =
      some "hans".data ∧
    (aget (parseState wStreamC4).blameMap (List.replicate 40 'c')).map BlameInfo.time =
      some (parseIntJS "99".data) :=
  ⟨(claim_C4_metadata_most_recent_hash wStreamC4 (List.replicate 40 'c')
      (by decide)).1 "hans".data (by decide),
   (claim_C4_metadata_most_recent_hash wStreamC4 (List.replicate 40 'c')
      (by decide)).2.1 "99".data (by decide)⟩
